import Mathlib

/-!
Verification development for the SeedboxSync synchronization and transfer
engine.  The definitions below are a shallow embedding of the TypeScript
sources:

* `src/unnamed/part_000` — the `Downloader` class (sync orchestration, the
  download queue, the FTP connection pool, remote-tree flattening, path
  mapping, the status snapshot);
* `src/server/src/libs/FtpDownloader.ts` — the resumable single-file
  transfer component.

JavaScript strings are modelled as Lean `String`s (the paths involved are
ASCII, so JS UTF-16 indexing and Lean character indexing agree); JS numbers
holding byte counts are `Nat`; the JS literal `56.3` is the rational
`563/10`.  Mutation of plain records is modelled by explicit state passing.
-/

namespace SeedboxSync

/-- Modelled from the spec: `FtpFile.appendSlash` lives in
`src/server/src/objects/FtpFile.ts`, which is not under `src/`.  Spec §3:
"a trailing separator is enforced before comparison to avoid matching
partial directory names".  The spec's path-mapping precedence example (§8)
requires the empty remote prefix to match every relative directory, and the
flattener's relative directories carry no leading separator, so the empty
string must be left unchanged. -/
def appendSlash (path : String) : String :=
  if path = "" then path
  else if path.data.getLast? = some '/' then path
  else path ++ "/"

/-- JS `a.indexOf(b) == 0`, i.e. `b` is a prefix of `a`, on the character
sequence of the strings. -/
def strStartsWith (a b : String) : Bool :=
  b.data.isPrefixOf a.data

/-- JS `a.substring(n)`: drop the first `n` characters. -/
def strDropChars (a : String) (n : Nat) : String :=
  String.mk (a.data.drop n)

/-- JS `a.length` (character count). -/
def strLen (a : String) : Nat :=
  a.data.length

/-- One configured path-mapping rule (`config.pathMappings` element). -/
structure PathMapping where
  remotePath : String
  localPath : String
deriving DecidableEq

/-- `Downloader.getDestinationDirectory` (src/unnamed/part_000:216-234),
with the configuration (`config.pathMappings`, `config.localSyncRoot`) and
the entry's `relativeDirectory` passed explicitly.  The source iterates the
rules in order; for the first rule whose slash-terminated `remotePath` is a
prefix of `relativeDirectory` it strips that prefix and appends the
remainder to the slash-terminated `localPath`; with no match it appends
`relativeDirectory` to the slash-terminated default sync root. -/
def getDestinationDirectory (pathMappings : List PathMapping)
    (localSyncRoot : String) (relativeDirectory : String) : String :=
  match pathMappings with
  | [] => appendSlash localSyncRoot ++ relativeDirectory
  | pathMap :: rest =>
    let pathMapDirectory := appendSlash pathMap.remotePath
    if strStartsWith relativeDirectory pathMapDirectory then
      appendSlash pathMap.localPath ++
        strDropChars relativeDirectory (strLen pathMapDirectory)
    else
      getDestinationDirectory rest localSyncRoot relativeDirectory

/-- The claim's reading of path mapping, stated with `List.find?`: the
first rule whose slash-terminated remote prefix matches wins; otherwise
the default root is used.  Used to state claim C5 as a refinement. -/
def resolveByFirstMatch (pathMappings : List PathMapping)
    (localSyncRoot : String) (relativeDirectory : String) : String :=
  match pathMappings.find?
      (fun m => strStartsWith relativeDirectory (appendSlash m.remotePath)) with
  | some m =>
    appendSlash m.localPath ++
      strDropChars relativeDirectory (strLen (appendSlash m.remotePath))
  | none => appendSlash localSyncRoot ++ relativeDirectory

/-- One entry of the `Downloader.downloadQueue` (an `FtpFile` as the queue
and status code uses it).  `id` stands for JS object identity. -/
structure FtpFileQ where
  id : Nat
  fullPath : String
  size : Nat
  transferred : Nat
  downloadRate : Rat
  downloading : Bool
deriving DecidableEq

/-- Number of queue entries currently marked `downloading`. -/
def dCount (queue : List FtpFileQ) : Nat :=
  (queue.filter (fun f => f.downloading)).length

/-- The scanning loop of `Downloader.getNextFileToDownload`
(src/unnamed/part_000:169-188): walk the queue accumulating
`downloadingCount` and the first file found with `downloading == false`. -/
def getNextLoop : List FtpFileQ → Nat → Option FtpFileQ → Nat × Option FtpFileQ
  | [], downloadingCount, nextFile => (downloadingCount, nextFile)
  | f :: rest, downloadingCount, nextFile =>
    if f.downloading then
      getNextLoop rest (downloadingCount + 1) nextFile
    else
      getNextLoop rest downloadingCount
        (match nextFile with
         | none => some f
         | some g => some g)

/-- `Downloader.getNextFileToDownload`: the first not-downloading entry,
but only when the count of downloading entries is strictly below
`config.downloads.countMax`. -/
def getNextFileToDownload (queue : List FtpFileQ) (countMax : Nat) :
    Option FtpFileQ :=
  let r := getNextLoop queue 0 none
  if r.1 < countMax then r.2 else none

/-- The `file.downloading = true` mutation performed by
`Downloader.downloadNextInQueue` (src/unnamed/part_000:251) on the file
returned by `getNextFileToDownload`, i.e. on the first entry of the queue
whose `downloading` flag is `false`. -/
def markFirstEligible : List FtpFileQ → List FtpFileQ
  | [] => []
  | f :: rest =>
    if f.downloading then f :: markFirstEligible rest
    else { f with downloading := true } :: rest

/-- One pass of the drain loop `Downloader.downloadNextInQueue`
(src/unnamed/part_000:239-251): ask `getNextFileToDownload`; when a file
comes back, mark it downloading (and dispatch it). -/
def downloadDispatchStep (countMax : Nat) (queue : List FtpFileQ) :
    List FtpFileQ :=
  match getNextFileToDownload queue countMax with
  | none => queue
  | some _ => markFirstEligible queue

/-- `ftpDownloadError` inside `Downloader.downloadNextInQueue`
(src/unnamed/part_000:267-274): on a transfer error the file's
`downloading` flag is set back to `false`; the file is not removed from the
queue. -/
def ftpDownloadError (queue : List FtpFileQ) (fid : Nat) : List FtpFileQ :=
  queue.map (fun f => if f.id = fid then { f with downloading := false } else f)

/-- Modelled from the spec: `FtpFile.json()` is in
`src/server/src/objects/FtpFile.ts`, which is not under `src/`.  Spec §6
lists the per-entry fields of the status snapshot: path, size, transferred,
downloadRate, downloading. -/
structure FileJson where
  path : String
  size : Nat
  transferred : Nat
  downloadRate : Rat
  downloading : Bool
deriving DecidableEq

/-- The `stats` object literal returned by `Downloader.status`. -/
structure StatsJson where
  download_rate : Rat
  max_download_rate : Nat
  num_connections : Nat
  max_num_connections : Nat
deriving DecidableEq

/-- The object returned by `Downloader.status`. -/
structure StatusResp where
  stats : StatsJson
  downloads : List FileJson
deriving DecidableEq

/-- `file.json()` applied to a queue entry (fields per spec §6). -/
def fileJson (f : FtpFileQ) : FileJson :=
  ⟨f.fullPath, f.size, f.transferred, f.downloadRate, f.downloading⟩

/-- `Downloader.status` (src/unnamed/part_000:56-73): pushes `file.json()`
for every file of `downloadQueue` in order, and returns it together with a
hard-coded `stats` literal.  The source only reads the queue, which the
embedding reflects by being a pure function of it. -/
def status (downloadQueue : List FtpFileQ) : StatusResp :=
  ⟨⟨563 / 10, 5000001, 1, 2⟩, downloadQueue.map fileJson⟩

/-- The mutable fields of the `Downloader` singleton that drive the sync
state machine (src/unnamed/part_000:17-27).  `pollingTimerArmed` models a
non-zero `pollingTimeoutId`. -/
structure OrchState where
  downloading : Bool
  syncRequestedWhileDownloading : Bool
  lastRunHadStuffToDownload : Bool
  pollingTimerArmed : Bool
deriving DecidableEq

/-- What a call into the orchestrator did, observably. -/
inductive SyncAction where
  | returnedImmediately
  | startedScan
  | armedTimer
deriving DecidableEq

/-- The state changes at the head of `Downloader.startSync`
(src/unnamed/part_000:92-102): clear `syncRequestedWhileDownloading`, set
`downloading`, cancel any scheduled polling timer, then begin the remote
scan. -/
def startSync (s : OrchState) : OrchState :=
  { s with
    syncRequestedWhileDownloading := false
    downloading := true
    pollingTimerArmed := false }

/-- `Downloader.syncRequest` (src/unnamed/part_000:43-54): while a cycle is
active, set the flag and return; otherwise start a sync. -/
def syncRequest (s : OrchState) : OrchState × SyncAction :=
  if s.downloading then
    ({ s with syncRequestedWhileDownloading := true }, .returnedImmediately)
  else
    (startSync s, .startedScan)

/-- `Downloader.downloadCompleteCallback` (src/unnamed/part_000:75-86):
clear `downloading`; re-sync at once when the finished cycle had work or a
sync was requested during it, otherwise arm the delayed polling timer. -/
def downloadCompleteCallback (s : OrchState) : OrchState × SyncAction :=
  let s1 := { s with downloading := false }
  if s1.lastRunHadStuffToDownload || s1.syncRequestedWhileDownloading then
    (startSync s1, .startedScan)
  else
    ({ s1 with pollingTimerArmed := true }, .armedTimer)

/-- The inputs `FtpDownloader`'s `downloadDone` closure
(src/server/src/libs/FtpDownloader.ts:56-102) reads from its environment:
whether a file descriptor was opened, the outcome of `fs.closeSync`, the
temp file's size as `fs.statSync` reports it at finalize time, the entry's
expected size, and the outcome of `fs.renameSync`. -/
structure DoneEnv where
  fdOpen : Bool
  closeErr : Option String
  tempSize : Nat
  fileSize : Nat
  renameErr : Option String
deriving DecidableEq

/-- What one invocation of `downloadDone` produces. -/
structure DoneResult where
  err : Option String
  renamed : Bool
  tempFileSizeAfter : Option Nat
  downloading : Bool
  callbackErr : Option String
deriving DecidableEq

/-- `downloadDone` (src/server/src/libs/FtpDownloader.ts:56-102), as a pure
function of its environment and the error it was invoked with: destroy the
socket, return the ftp session, close the fd (a close exception replaces
`err`), then — only while `err` is still unset — stat the temp file and
classify a size shortfall as "Not completely downloaded", then — only while
`err` is still unset — rename the temp file to the final path (a rename
exception replaces `err`); finally clear `downloading` and invoke the
completion callback with `err`.  `tempFileSizeAfter` is the temp file's
size after the call (`none` once it has been renamed away). -/
def downloadDone (env : DoneEnv) (errIn : Option String) : DoneResult :=
  let err1 :=
    if env.fdOpen then
      match env.closeErr with
      | some e => some e
      | none => errIn
    else errIn
  let err2 :=
    match err1 with
    | none => if env.tempSize < env.fileSize then some "Not completely downloaded" else none
    | some e => some e
  let renamed := err2.isNone && env.renameErr.isNone
  let err3 :=
    match err2 with
    | none => env.renameErr
    | some e => some e
  { err := err3
    renamed := renamed
    tempFileSizeAfter := if renamed then none else some env.tempSize
    downloading := false
    callbackErr := err3 }

/-- The termination signals that can reach the (`once`-wrapped)
`downloadDone` of one download attempt: the socket `close` event, the ftp
session's `error` and `timeout` events, a `getGetSocket` failure, and an
`fs.openSync` exception (FtpDownloader.ts:108-111, 126-129, 136-140,
154). -/
inductive TermSignal where
  | sockClose
  | sessionError (e : String)
  | timeout
  | streamOpenFail (e : String)
  | fileOpenFail (e : String)
deriving DecidableEq

/-- The error argument each signal hands to `downloadDone` (the `close`
event of a normally ended stream carries no error). -/
def signalErr : TermSignal → Option String
  | .sockClose => none
  | .sessionError e => some e
  | .timeout => some "timeout"
  | .streamOpenFail e => some e
  | .fileOpenFail e => some e

/-- State of the `once(downloadDone)` wrapper (FtpDownloader.ts:105)
together with the completion-callback invocations observed so far. -/
structure OnceSt where
  called : Bool
  callbackErrs : List (Option String)
deriving DecidableEq

/-- Delivering one termination signal to the `once`-wrapped `downloadDone`:
the first delivery runs `downloadDone` (which ends by invoking the
completion callback); later deliveries are ignored. -/
def fireDownloadDone (env : DoneEnv) (st : OnceSt) (sig : TermSignal) : OnceSt :=
  if st.called then st
  else ⟨true, st.callbackErrs ++ [(downloadDone env (signalErr sig)).callbackErr]⟩

/-- Delivering a sequence of termination signals to one download attempt. -/
def runTermination (env : DoneEnv) (sigs : List TermSignal) : OnceSt :=
  sigs.foldl (fireDownloadDone env) ⟨false, []⟩

/-- The external events of one whole `FtpDownloader.start` attempt
(FtpDownloader.ts:26-159): the entry's expected `size`; the temp file that
may already exist (`fs.openSync(tempPath, "a")` creates it with size 0 when
absent) or an open exception; the outcome of `ftp.getGetSocket`; the sizes
of the data chunks the stream delivers before its `close`; and the
`closeSync` / `renameSync` outcomes consulted by `downloadDone`. -/
structure AttemptEnv where
  fileSize : Nat
  tempExisting : Option Nat
  openFails : Bool
  streamOpenErr : Option String
  chunks : List Nat
  closeErr : Option String
  renameErr : Option String
deriving DecidableEq

/-- The observable outcome of one attempt: the `skipBytes` computed from
the opened temp file, the offset handed to `ftp.getGetSocket`, the value
`file.transferred` is set to right after opening, the number of bytes
appended to the temp file by `data` events, and the finalize result. -/
structure AttemptOutcome where
  skipBytes : Option Nat
  requestOffset : Option Nat
  transferredAtStart : Option Nat
  bytesAppended : Nat
  done : DoneResult
deriving DecidableEq

/-- Total size of the delivered data chunks. -/
def chunkSum (chunks : List Nat) : Nat :=
  chunks.foldl (fun a b => a + b) 0

/-- One `FtpDownloader.start` attempt end to end
(FtpDownloader.ts:113-158 feeding the `downloadDone` finalize):
an `fs.openSync` exception calls `downloadDone` with the exception before a
fd or socket exists; otherwise `skipBytes` is the opened temp file's size,
`file.transferred` is set to `skipBytes` at once, and the byte stream is
requested at offset `skipBytes`.  A `getGetSocket` error calls
`downloadDone` with it; otherwise every `data` chunk is appended to the
temp file and the stream's `close` calls `downloadDone` with no error. -/
def runAttempt (env : AttemptEnv) : AttemptOutcome :=
  if env.openFails then
    { skipBytes := none
      requestOffset := none
      transferredAtStart := none
      bytesAppended := 0
      done := downloadDone ⟨false, none, 0, env.fileSize, env.renameErr⟩
        (some "Error opening file for writing") }
  else
    let skipBytes := env.tempExisting.getD 0
    match env.streamOpenErr with
    | some e =>
      { skipBytes := some skipBytes
        requestOffset := some skipBytes
        transferredAtStart := some skipBytes
        bytesAppended := 0
        done := downloadDone
          ⟨true, env.closeErr, skipBytes, env.fileSize, env.renameErr⟩ (some e) }
    | none =>
      let appended := chunkSum env.chunks
      { skipBytes := some skipBytes
        requestOffset := some skipBytes
        transferredAtStart := some skipBytes
        bytesAppended := appended
        done := downloadDone
          ⟨true, env.closeErr, skipBytes + appended, env.fileSize, env.renameErr⟩ none }

/-- A JSFtp session object as the pool code sees it: its identity and the
number of `error`/`timeout` handler pairs attached to it by
`downloadNextInQueue` (src/unnamed/part_000:276-277).  `ftp.on` adds a
listener; nothing in the source ever removes one, so handlers accumulate
across pool reuse. -/
structure FtpObj where
  id : Nat
  errorHandlers : Nat
deriving DecidableEq

/-- `Downloader.newJSFtp` (src/unnamed/part_000:32-41): a fresh session
with no download error handlers attached. -/
def newJSFtp (fresh : Nat) : FtpObj :=
  ⟨fresh, 0⟩

/-- `Downloader.ftpForDownloading` (src/unnamed/part_000:146-152):
`ftpConnectionPool.pop() || newJSFtp()`.  The pool is modelled as a stack
with its top at the head (JS pushes and pops at the array's end). -/
def ftpForDownloading : List FtpObj → Nat → FtpObj × List FtpObj
  | [], fresh => (newJSFtp fresh, [])
  | f :: rest, _ => (f, rest)

/-- `Downloader.doneWithFtpObj` (src/unnamed/part_000:159-161): push the
session back onto the pool. -/
def doneWithFtpObj (pool : List FtpObj) (ftp : FtpObj) : List FtpObj :=
  ftp :: pool

/-- The `ftp.on('error', ftpDownloadError); ftp.on('timeout',
ftpDownloadError)` pair attached by `downloadNextInQueue`
(src/unnamed/part_000:276-277) each time a session is borrowed. -/
def attachDownloadHandlers (f : FtpObj) : FtpObj :=
  { f with errorHandlers := f.errorHandlers + 1 }

/-- Running `n` attached `ftpDownloadError` closures, each of which calls
`doneWithFtpObj` on the session (src/unnamed/part_000:267-274). -/
def runHandlers : Nat → List FtpObj → FtpObj → List FtpObj
  | 0, pool, _ => pool
  | n + 1, pool, ftp => runHandlers n (doneWithFtpObj pool ftp) ftp

/-- A single `error` event emitted by a session runs every
`ftpDownloadError` closure ever attached to it. -/
def emitError (pool : List FtpObj) (ftp : FtpObj) : List FtpObj :=
  runHandlers ftp.errorHandlers pool ftp

/-- Pool contents after this concrete run of the source: the pool starts
empty; a session is borrowed (created fresh), gets its handler pair, and
finishes its download successfully, so the `ftp.get` callback returns it to
the pool with its listeners still attached; the same session is borrowed
again for a second file, gets a second handler pair, and then a single
`error` event arrives for it. -/
def reusedSessionErrorPool : List FtpObj :=
  let b1 := ftpForDownloading [] 0
  let s1 := attachDownloadHandlers b1.1
  let pool1 := doneWithFtpObj b1.2 s1
  let b2 := ftpForDownloading pool1 1
  let s2 := attachDownloadHandlers b2.1
  emitError b2.2 s2

/-- Node types of the `lsr` listing as `FtpFile`'s constants name them. -/
inductive FtpNodeType where
  | symlinkT
  | fileT
  | directoryT
  | otherT
deriving DecidableEq

mutual
/-- One node of the hierarchical remote listing handed to
`processFilesJSON`: a `type`, a `name`, and — when `typeof file.children ==
'object'` — a children collection. -/
inductive LNode : Type where
  | mk : FtpNodeType → String → Option LForest → LNode
/-- A sibling list of listing nodes, in listing order. -/
inductive LForest : Type where
  | fnil : LForest
  | fcons : LNode → LForest → LForest
end

/-- The fields of the `FtpFile` built by `processFilesJSON` that the
flattening claims are about. -/
structure FtpFileEntry where
  relativeDirectory : String
  name : String
  isSymLink : Bool
deriving DecidableEq

mutual
/-- `Downloader.processFilesJSON` (src/unnamed/part_000:337-359):
slash-terminate `relativePath`; at zero remaining depth stop (contributing
nothing, which is what the accumulator-passing source does for a branch);
otherwise loop over the listing. -/
def processFilesJSON (data : LForest) (depth : Nat) (relativePath : String) :
    List FtpFileEntry :=
  let rel := appendSlash relativePath
  if depth = 0 then [] else processItems data depth rel
termination_by (sizeOf data, 1)

/-- The `for (let file of data)` loop body of `processFilesJSON`: push an
entry for every symlink or file node, recurse (with one less unit of depth
and the extended relative path) into every directory node that has a
children collection, and skip everything else. -/
def processItems (data : LForest) (depth : Nat) (rel : String) :
    List FtpFileEntry :=
  match data with
  | .fnil => []
  | .fcons (.mk t name children) rest =>
    (match t, children with
     | .symlinkT, _ => [⟨rel, name, true⟩]
     | .fileT, _ => [⟨rel, name, false⟩]
     | .directoryT, some cs => processFilesJSON cs (depth - 1) (rel ++ name)
     | .directoryT, none => []
     | .otherT, _ => []) ++ processItems rest depth rel
termination_by (sizeOf data, 0)
end

/-- Claim-side description of the listing (claim C6's words): every file
and symlink node of the whole tree, in sibling listing order, each paired
with the number of directory levels above it, carrying the relative
directory the flattener would give it. -/
def collectEntries (data : LForest) (rel : String) : List (Nat × FtpFileEntry) :=
  match data with
  | .fnil => []
  | .fcons (.mk t name children) rest =>
    (match t, children with
     | .symlinkT, _ => [(0, ⟨rel, name, true⟩)]
     | .fileT, _ => [(0, ⟨rel, name, false⟩)]
     | .directoryT, some cs =>
       (collectEntries cs (appendSlash (rel ++ name))).map (fun p => (p.1 + 1, p.2))
     | .directoryT, none => []
     | .otherT, _ => []) ++ collectEntries rest rel
termination_by sizeOf data

/-- Keep the entries whose directory level is strictly below the depth
bound, preserving order. -/
def keepWithinDepth (d : Nat) (l : List (Nat × FtpFileEntry)) :
    List FtpFileEntry :=
  l.filterMap (fun p => if p.1 < d then some p.2 else none)

/-! ## Theorems -/

lemma foldl_fireDownloadDone_called (env : DoneEnv) (st : OnceSt)
    (h : st.called = true) (sigs : List TermSignal) :
    sigs.foldl (fireDownloadDone env) st = st := by
  induction sigs with
  | nil => rfl
  | cons a l ih =>
    have : fireDownloadDone env st a = st := by
      simp [fireDownloadDone, h]
    simpa [List.foldl, this] using ih

/-- C1: however many termination signals (socket close, session error,
timeout, stream-open failure, file-open failure) reach one download
attempt, the `once`-wrapped finalize runs for the first of them only, so
the completion callback is invoked exactly one time; in particular a
socket-close plus a timeout on the same attempt yield a single
invocation. -/
theorem c1_finalize_exactly_once (env : DoneEnv) (s : TermSignal)
    (rest : List TermSignal) :
    (runTermination env (s :: rest)).callbackErrs.length = 1 ∧
    (runTermination env (s :: rest)).callbackErrs =
      [(downloadDone env (signalErr s)).callbackErr] ∧
    (runTermination env [TermSignal.sockClose, TermSignal.timeout]).callbackErrs.length = 1 := by
  have hfire : fireDownloadDone env ⟨false, []⟩ s =
      ⟨true, [(downloadDone env (signalErr s)).callbackErr]⟩ := by
    simp [fireDownloadDone]
  have hrun : runTermination env (s :: rest) =
      ⟨true, [(downloadDone env (signalErr s)).callbackErr]⟩ := by
    unfold runTermination
    rw [List.foldl_cons, hfire]
    exact foldl_fireDownloadDone_called env _ rfl rest
  refine ⟨by rw [hrun]; rfl, by rw [hrun], ?_⟩
  have h2 : runTermination env [TermSignal.sockClose, TermSignal.timeout] =
      ⟨true, [(downloadDone env (signalErr TermSignal.sockClose)).callbackErr]⟩ := by
    unfold runTermination
    rw [List.foldl_cons]
    have : fireDownloadDone env ⟨false, []⟩ TermSignal.sockClose =
        ⟨true, [(downloadDone env (signalErr TermSignal.sockClose)).callbackErr]⟩ := by
      simp [fireDownloadDone]
    rw [this]
    exact foldl_fireDownloadDone_called env _ rfl _
  rw [h2]; rfl

/-- C2: an attempt that reaches finalize with no prior error and no close
error, but whose temp file is strictly smaller than the entry's expected
size, is classified "Not completely downloaded", is never renamed, and
leaves the temp file in place with its partial size unchanged; the
completion callback receives that error. -/
theorem c2_incomplete_transfer_no_rename (env : DoneEnv)
    (hclose : env.closeErr = none) (hsize : env.tempSize < env.fileSize) :
    (downloadDone env none).err = some "Not completely downloaded" ∧
    (downloadDone env none).renamed = false ∧
    (downloadDone env none).tempFileSizeAfter = some env.tempSize ∧
    (downloadDone env none).callbackErr = some "Not completely downloaded" := by
  obtain ⟨fd, ce, ts, fsz, re⟩ := env
  simp only at hclose hsize
  subst hclose
  cases fd <;> simp [downloadDone, hsize]

/-- Closed witness for `c2_incomplete_transfer_no_rename` at a concrete
environment (temp size 3, expected size 10). -/
theorem c2_incomplete_transfer_no_rename_witness :
    (downloadDone ⟨true, none, 3, 10, none⟩ none).renamed = false ∧
    (downloadDone ⟨true, none, 3, 10, none⟩ none).tempFileSizeAfter = some 3 := by
  have h := c2_incomplete_transfer_no_rename ⟨true, none, 3, 10, none⟩ rfl (by decide)
  exact ⟨h.2.1, h.2.2.1⟩

/-- C3: an attempt whose temp file opens with size K sets `skipBytes = K`,
sets `entry.transferred = K` immediately, and requests the byte stream at
offset K; when K equals the expected size and the stream then closes
cleanly with no further data, the size check passes at once and the file is
renamed into place with zero bytes appended; an absent temp file gives the
same logic with K = 0. -/
theorem c3_resume_from_partial_size (total K : Nat) (chunks : List Nat)
    (closeE renameE : Option String) :
    ((runAttempt ⟨total, some K, false, none, chunks, closeE, renameE⟩).skipBytes = some K ∧
     (runAttempt ⟨total, some K, false, none, chunks, closeE, renameE⟩).requestOffset = some K ∧
     (runAttempt ⟨total, some K, false, none, chunks, closeE, renameE⟩).transferredAtStart = some K) ∧
    (K = total → chunks = [] → closeE = none → renameE = none →
      (runAttempt ⟨total, some K, false, none, chunks, closeE, renameE⟩).done.renamed = true ∧
      (runAttempt ⟨total, some K, false, none, chunks, closeE, renameE⟩).bytesAppended = 0 ∧
      (runAttempt ⟨total, some K, false, none, chunks, closeE, renameE⟩).done.callbackErr = none) ∧
    ((runAttempt ⟨total, none, false, none, chunks, closeE, renameE⟩).skipBytes = some 0 ∧
     (runAttempt ⟨total, none, false, none, chunks, closeE, renameE⟩).requestOffset = some 0 ∧
     (runAttempt ⟨total, none, false, none, chunks, closeE, renameE⟩).transferredAtStart = some 0) := by
  refine ⟨by simp [runAttempt], ?_, by simp [runAttempt]⟩
  rintro rfl rfl rfl rfl
  simp [runAttempt, downloadDone, chunkSum]

/-- Closed witness for `c3_resume_from_partial_size`: an already complete
temp file of size 5 (expected size 5) is published with nothing appended,
and a zero-length file (K = 0, expected 0) passes the same logic. -/
theorem c3_resume_from_partial_size_witness :
    (runAttempt ⟨5, some 5, false, none, [], none, none⟩).done.renamed = true ∧
    (runAttempt ⟨5, some 5, false, none, [], none, none⟩).bytesAppended = 0 ∧
    (runAttempt ⟨0, some 0, false, none, [], none, none⟩).done.renamed = true := by
  have h5 := (c3_resume_from_partial_size 5 5 [] none none).2.1 rfl rfl rfl rfl
  have h0 := (c3_resume_from_partial_size 0 0 [] none none).2.1 rfl rfl rfl rfl
  exact ⟨h5.1, h5.2.1, h0.1⟩

/-- C7: a sync request arriving while a cycle is active starts no second
cycle — it only sets `syncRequestedWhileDownloading` and returns; when a
cycle completes, a new sync starts immediately exactly when that flag is
set or the finished cycle had work, and otherwise the delayed polling timer
is armed. -/
theorem c7_sync_state_machine (s : OrchState) :
    (s.downloading = true →
      syncRequest s =
        ({ s with syncRequestedWhileDownloading := true }, SyncAction.returnedImmediately)) ∧
    ((s.lastRunHadStuffToDownload || s.syncRequestedWhileDownloading) = true →
      (downloadCompleteCallback s).2 = SyncAction.startedScan ∧
      (downloadCompleteCallback s).1.downloading = true ∧
      (downloadCompleteCallback s).1.pollingTimerArmed = false) ∧
    ((s.lastRunHadStuffToDownload || s.syncRequestedWhileDownloading) = false →
      (downloadCompleteCallback s).2 = SyncAction.armedTimer ∧
      (downloadCompleteCallback s).1.downloading = false ∧
      (downloadCompleteCallback s).1.pollingTimerArmed = true) := by
  refine ⟨fun h => ?_, fun h => ?_, fun h => ?_⟩ <;>
    simp [syncRequest, downloadCompleteCallback, startSync, h]

/-- Closed witness for `c7_sync_state_machine`, exercising all three
branches on concrete states. -/
theorem c7_sync_state_machine_witness :
    (syncRequest ⟨true, false, false, false⟩).2 = SyncAction.returnedImmediately ∧
    (downloadCompleteCallback ⟨true, true, false, false⟩).2 = SyncAction.startedScan ∧
    (downloadCompleteCallback ⟨true, false, false, false⟩).2 = SyncAction.armedTimer := by
  refine ⟨?_, ?_, ?_⟩
  · rw [(c7_sync_state_machine ⟨true, false, false, false⟩).1 rfl]
  · exact ((c7_sync_state_machine ⟨true, true, false, false⟩).2.1 rfl).1
  · exact ((c7_sync_state_machine ⟨true, false, false, false⟩).2.2 rfl).1

/-- C9 (failing run): the pool starts empty; one session is created,
borrowed, and returned after a successful download with its
`error`/`timeout` handlers still attached; the same session is borrowed a
second time (gaining a second handler pair) and then receives a single
`error` event.  Both accumulated `ftpDownloadError` closures run, each
calling `doneWithFtpObj`, so this one borrow returns the session to the
pool twice — the pool now holds the same session in two slots and the next
two borrows hand the same session to two different transfers. -/
theorem c9_session_returned_twice_for_one_borrow :
    reusedSessionErrorPool = [⟨0, 2⟩, ⟨0, 2⟩] ∧
    reusedSessionErrorPool.count ⟨0, 2⟩ = 2 ∧
    (ftpForDownloading reusedSessionErrorPool 7).1.id =
      (ftpForDownloading (ftpForDownloading reusedSessionErrorPool 7).2 8).1.id := by
  decide

/-- C10: the `stats` object of `status()` is the same hard-coded record —
download_rate 56.3, max_download_rate 5000001, num_connections 1,
max_num_connections 2 — for every queue state, while the `downloads` array
is exactly `file.json()` of each queue entry in queue order; `status` is a
pure function of the queue. -/
theorem c10_status_snapshot (q q' : List FtpFileQ) :
    (status q).stats = (status q').stats ∧
    (status q).stats = ⟨563 / 10, 5000001, 1, 2⟩ ∧
    (status q).downloads = q.map fileJson ∧
    (status q).downloads.length = q.length := by
  refine ⟨rfl, rfl, rfl, by simp [status]⟩

lemma getNextLoop_spec (q : List FtpFileQ) (c : Nat) (nf : Option FtpFileQ) :
    getNextLoop q c nf =
      (c + dCount q,
       match nf with
       | some g => some g
       | none => q.find? (fun f => !f.downloading)) := by
  induction q generalizing c nf with
  | nil => cases nf <;> simp [getNextLoop, dCount]
  | cons f rest ih =>
    by_cases hd : f.downloading
    · rw [getNextLoop.eq_def]
      simp only [if_pos hd]
      rw [ih]
      have hc : dCount (f :: rest) = dCount rest + 1 := by
        simp [dCount, hd]
      have hf : (f :: rest).find? (fun f => !f.downloading) =
          rest.find? (fun f => !f.downloading) := by
        simp [List.find?, hd]
      cases nf <;> simp [hc, hf] <;> omega
    · rw [getNextLoop.eq_def]
      simp only [if_neg hd]
      rw [ih]
      have hc : dCount (f :: rest) = dCount rest := by
        simp [dCount, hd]
      have hf : (f :: rest).find? (fun f => !f.downloading) = some f := by
        simp [List.find?, hd]
      cases nf <;> simp [hc, hf]

lemma getNextFileToDownload_char (q : List FtpFileQ) (m : Nat) :
    getNextFileToDownload q m =
      if dCount q < m then q.find? (fun f => !f.downloading) else none := by
  rw [getNextFileToDownload, getNextLoop_spec]
  simp

lemma dCount_markFirstEligible (q : List FtpFileQ) :
    dCount (markFirstEligible q) ≤ dCount q + 1 := by
  induction q with
  | nil => simp [markFirstEligible, dCount]
  | cons f rest ih =>
    by_cases hd : f.downloading
    · rw [markFirstEligible, if_pos hd]
      have h1 : dCount (f :: markFirstEligible rest) =
          dCount (markFirstEligible rest) + 1 := by simp [dCount, hd]
      have h2 : dCount (f :: rest) = dCount rest + 1 := by simp [dCount, hd]
      omega
    · rw [markFirstEligible, if_neg hd]
      have h1 : dCount ({ f with downloading := true } :: rest) = dCount rest + 1 := by
        simp [dCount]
      have h2 : dCount (f :: rest) = dCount rest := by simp [dCount, hd]
      omega

lemma dCount_downloadDispatchStep (m : Nat) (q : List FtpFileQ)
    (h : dCount q ≤ m) : dCount (downloadDispatchStep m q) ≤ m := by
  cases hg : getNextFileToDownload q m with
  | none => simp only [downloadDispatchStep, hg]; exact h
  | some f =>
    simp only [downloadDispatchStep, hg]
    have hlt : dCount q < m := by
      rw [getNextFileToDownload_char] at hg
      by_contra hcon
      rw [if_neg hcon] at hg
      exact Option.noConfusion hg
    have := dCount_markFirstEligible q
    omega

/-- C4: `getNextFileToDownload` returns the first queue entry whose
`downloading` flag is false, and only when the count of downloading entries
is strictly below `countMax` — otherwise `none`; consequently a queue whose
downloading count is within the cap keeps it within the cap through every
pass of the drain loop. -/
theorem c4_next_eligible_bounded (q : List FtpFileQ) (m : Nat) :
    (getNextFileToDownload q m =
      if dCount q < m then q.find? (fun f => !f.downloading) else none) ∧
    (∀ n, dCount q ≤ m → dCount ((downloadDispatchStep m)^[n] q) ≤ m) := by
  refine ⟨getNextFileToDownload_char q m, fun n => ?_⟩
  induction n generalizing q with
  | zero => intro h; simpa using h
  | succ k ih =>
    intro h
    rw [Function.iterate_succ_apply]
    exact ih _ (dCount_downloadDispatchStep m q h)

/-- Closed witness for `c4_next_eligible_bounded`: a three-file queue with
one download in flight and cap 2 stays within the cap over three drain
passes. -/
theorem c4_next_eligible_bounded_witness :
    dCount ((downloadDispatchStep 2)^[3]
      [⟨0, "a", 1, 0, 0, true⟩, ⟨1, "b", 1, 0, 0, false⟩, ⟨2, "c", 1, 0, 0, false⟩]) ≤ 2 :=
  (c4_next_eligible_bounded _ 2).2 3 (by decide)

/-- C5: `getDestinationDirectory` resolves by the first rule whose
slash-terminated `remotePath` is a prefix of the entry's
`relativeDirectory`, stripping that prefix and appending the remainder to
the rule's slash-terminated `localPath`, with the default sync root used
when no rule matches; with rules [("tv/", "/local/tv"), ("",
"/local/default")], "tv/showA/" resolves to "/local/tv/showA/" and
"movies/" to "/local/default/movies/". -/
theorem c5_path_mapping_precedence (ms : List PathMapping)
    (root rd : String) :
    getDestinationDirectory ms root rd = resolveByFirstMatch ms root rd ∧
    getDestinationDirectory [⟨"tv/", "/local/tv"⟩, ⟨"", "/local/default"⟩]
      "/sync/default" "tv/showA/" = "/local/tv/showA/" ∧
    getDestinationDirectory [⟨"tv/", "/local/tv"⟩, ⟨"", "/local/default"⟩]
      "/sync/default" "movies/" = "/local/default/movies/" := by
  refine ⟨?_, by decide, by decide⟩
  induction ms with
  | nil => rfl
  | cons pathMap rest ih =>
    cases h : strStartsWith rd (appendSlash pathMap.remotePath) with
    | true => simp [getDestinationDirectory, resolveByFirstMatch, List.find?, h]
    | false => simp [getDestinationDirectory, resolveByFirstMatch, List.find?, h, ih]

/-- C8: after `ftpDownloadError` the errored entry is still in the queue
(queue length unchanged, every entry with its identity now not
downloading), and — whenever the downloading count is below the cap on a
later drain pass — `getNextFileToDownload` again returns a not-downloading
entry, so the file is retried. -/
theorem c8_error_keeps_file_retryable (q : List FtpFileQ) (fid m : Nat)
    (hmem : ∃ f ∈ q, f.id = fid) :
    ((ftpDownloadError q fid).length = q.length) ∧
    (∀ f ∈ ftpDownloadError q fid, f.id = fid → f.downloading = false) ∧
    (∃ f ∈ ftpDownloadError q fid, f.id = fid ∧ f.downloading = false) ∧
    (dCount (ftpDownloadError q fid) < m →
      ∃ e, getNextFileToDownload (ftpDownloadError q fid) m = some e ∧
        e.downloading = false) := by
  refine ⟨by simp [ftpDownloadError], ?_, ?_, ?_⟩
  · intro f hf hid
    rw [ftpDownloadError] at hf
    obtain ⟨g, hg, rfl⟩ := List.mem_map.mp hf
    by_cases h : g.id = fid
    · simp [h]
    · simp only [if_neg h] at hid ⊢
      exact absurd hid h
  · obtain ⟨f, hf, hid⟩ := hmem
    refine ⟨{ f with downloading := false }, ?_, hid, rfl⟩
    rw [ftpDownloadError]
    have : ({ f with downloading := false } : FtpFileQ) =
        (fun g => if g.id = fid then { g with downloading := false } else g) f := by
      simp [hid]
    rw [this]
    exact List.mem_map_of_mem _ hf
  · intro hlt
    rw [getNextFileToDownload_char, if_pos hlt]
    obtain ⟨f, hf, hid⟩ := hmem
    have hmem' : ({ f with downloading := false } : FtpFileQ) ∈ ftpDownloadError q fid := by
      rw [ftpDownloadError]
      have : ({ f with downloading := false } : FtpFileQ) =
          (fun g => if g.id = fid then { g with downloading := false } else g) f := by
        simp [hid]
      rw [this]
      exact List.mem_map_of_mem _ hf
    have hsome : ((ftpDownloadError q fid).find? (fun f => !f.downloading)).isSome := by
      rw [List.find?_isSome]
      exact ⟨_, hmem', rfl⟩
    obtain ⟨e, he⟩ := Option.isSome_iff_exists.mp hsome
    refine ⟨e, he, ?_⟩
    have := List.find?_some he
    simpa using this

/-- Closed witness for `c8_error_keeps_file_retryable`: a one-file queue
whose in-flight download errors; the file stays queued, is marked not
downloading, and the next pass (cap 1) selects a not-downloading entry. -/
theorem c8_error_keeps_file_retryable_witness :
    ∃ e, getNextFileToDownload (ftpDownloadError [⟨5, "x", 9, 4, 0, true⟩] 5) 1 = some e ∧
      e.downloading = false :=
  (c8_error_keeps_file_retryable [⟨5, "x", 9, 4, 0, true⟩] 5 1
    ⟨⟨5, "x", 9, 4, 0, true⟩, by decide, rfl⟩).2.2.2 (by decide)

lemma keepWithinDepth_append (d : Nat) (a b : List (Nat × FtpFileEntry)) :
    keepWithinDepth d (a ++ b) = keepWithinDepth d a ++ keepWithinDepth d b := by
  simp [keepWithinDepth, List.filterMap_append]

lemma keepWithinDepth_zero (l : List (Nat × FtpFileEntry)) :
    keepWithinDepth 0 l = [] := by
  simp [keepWithinDepth]

lemma keepWithinDepth_map_succ (d : Nat)
    (l : List (Nat × FtpFileEntry)) :
    keepWithinDepth d (l.map (fun p => (p.1 + 1, p.2))) =
      keepWithinDepth (d - 1) l := by
  induction l with
  | nil => simp [keepWithinDepth]
  | cons p rest ih =>
    simp only [keepWithinDepth, List.map_cons, List.filterMap_cons] at ih ⊢
    by_cases h : p.1 + 1 < d
    · have h' : p.1 < d - 1 := by omega
      simp [h, h', ih]
    · have h' : ¬ p.1 < d - 1 := by omega
      simp [h, h', ih]

lemma processItems_eq_keepWithinDepth :
    ∀ (n : Nat) (data : LForest), sizeOf data ≤ n →
      ∀ (depth : Nat), depth ≠ 0 → ∀ (rel : String),
        processItems data depth rel =
          keepWithinDepth depth (collectEntries data rel) := by
  intro n
  induction n with
  | zero =>
    intro data hsize
    exfalso
    cases data <;> simp_arith at hsize
  | succ n ih =>
    intro data hsize depth hdepth rel
    have hlt : 0 < depth := Nat.pos_of_ne_zero hdepth
    cases data with
    | fnil => simp [processItems, collectEntries, keepWithinDepth]
    | fcons node rest =>
      cases node with
      | mk t name children =>
        have hrest : sizeOf rest ≤ n := by
          simp_arith [LForest.fcons.sizeOf_spec, LNode.mk.sizeOf_spec] at hsize
          omega
        have ihrest := ih rest hrest depth hdepth rel
        cases t with
        | symlinkT =>
          simp only [processItems, collectEntries]
          rw [keepWithinDepth_append, ihrest]
          congr 1
          simp [keepWithinDepth, hlt]
        | fileT =>
          simp only [processItems, collectEntries]
          rw [keepWithinDepth_append, ihrest]
          congr 1
          simp [keepWithinDepth, hlt]
        | otherT =>
          simp only [processItems, collectEntries]
          rw [keepWithinDepth_append, ihrest]
          congr 1
        | directoryT =>
          cases children with
          | none =>
            simp only [processItems, collectEntries]
            rw [keepWithinDepth_append, ihrest]
            congr 1
          | some cs =>
            have hcs : sizeOf cs ≤ n := by
              simp_arith [LForest.fcons.sizeOf_spec, LNode.mk.sizeOf_spec] at hsize
              omega
            simp only [processItems, collectEntries]
            rw [keepWithinDepth_append, ihrest,
              keepWithinDepth_map_succ depth]
            congr 1
            by_cases hz : depth - 1 = 0
            · rw [processFilesJSON.eq_def, hz]
              simp [keepWithinDepth_zero]
            · rw [processFilesJSON.eq_def]
              simp only [hz, if_false]
              exact ih cs hcs (depth - 1) hz (appendSlash (rel ++ name))

/-- C6: flattening a hierarchical listing with maximum depth `d` yields
exactly the file and symlink nodes whose number of directory levels is
strictly below `d`, in sibling listing order (the order of the full
pre-order walk), with each recursion into a directory consuming one unit of
remaining depth; deeper branches contribute nothing while entries already
collected are kept, and the function is total — a too-deep listing never
fails the scan. -/
theorem c6_depth_bounded_flattening (data : LForest) (depth : Nat)
    (relativePath : String) :
    processFilesJSON data depth relativePath =
      keepWithinDepth depth (collectEntries data (appendSlash relativePath)) := by
  by_cases hz : depth = 0
  · rw [processFilesJSON.eq_def, hz]
    simp [keepWithinDepth_zero]
  · rw [processFilesJSON.eq_def]
    simp only [hz, if_false]
    exact processItems_eq_keepWithinDepth (sizeOf data) data le_rfl depth hz _

end SeedboxSync
